import Mathlib

/-!
Verification of the task-orchestration core of the AI_Employee repository.

Each Python component relevant to the checked claims is shallowly embedded
as executable Lean definitions:

* `AI_Employee_Vault/watchers/ralph_wiggum_loop.py` — the persistent plan
  executor (`RalphWiggumLoop`): step retry loop, approval gating, task
  partition moves.
* `AI_Employee_Vault/watchers/orchestrator.py` — priority scan and cycle.
* `AI_Employee_Vault/watchers/error_recovery.py` — circuit breaker.
* `AI_Employee_Vault/watchers/scheduled_tasks.py` — schedule checks and
  task runs.
* `AI_Employee_Vault/watchers/approval_workflow.py` — decision-marker
  detection and the approval scan.
* `AI_Employee_Vault/watchers/audit_logger.py` — checksummed journal.

Filesystem folders are modelled as lists ("partitions"), wall-clock
datetimes as seconds-since-epoch naturals, and the outcomes of external
effects (human approval decisions, registered handlers) as explicit
oracle functions, so that every embedded operation is a pure, executable
function of its inputs.
-/

namespace AIEmployee

/-! ## Ralph Wiggum loop (`ralph_wiggum_loop.py`) -/

/-- Step statuses, mirroring the Python `StepStatus` enum
(`pending`, `in_progress`, `waiting_approval`, `completed`, `failed`,
`skipped`). -/
inductive StepStatus
  | pending
  | inProgress
  | waitingApproval
  | completed
  | failed
  | skipped
deriving DecidableEq, Repr

/-- Task statuses, mirroring the Python `TaskStatus` enum. -/
inductive TaskStatus
  | notStarted
  | inProgress
  | waiting
  | completed
  | failed
deriving DecidableEq, Repr

/-- One plan step, as stored in the plan JSON: `step.get("name", ...)`,
`step.get("action", "")`, `step.get("needs_approval", False)`,
`step.get("action_type", "default")` (absence modelled as `none`), and the
mutable `status` field. -/
structure RWStep where
  name : String
  action : String
  needs_approval : Bool
  action_type : Option String
  status : StepStatus
deriving DecidableEq, Repr

/-- Outcome of one invocation of a registered action handler:
it returns `{"success": True}`, returns a failure dict, or raises. -/
inductive ActionOutcome
  | succeeds
  | fails
  | raises
deriving DecidableEq, Repr

/-- Oracles for the external effects consulted by
`_execute_step_with_retry` on a given step: `approvalAt i` is the
`approved` field returned by `_wait_for_approval` at attempt index `i`
(0-based), and `handlerAt i` is the registered handler's outcome at
attempt index `i`. -/
structure StepEnv where
  approvalAt : Nat → Bool
  handlerAt : Nat → ActionOutcome

/-- Embedding of `RalphWiggumLoop._execute_action`: look up
`step.get("action_type", "default")` in `self.action_handlers`
(membership modelled by `registered`); if registered, the handler runs
(outcome given by the oracle), otherwise the step is marked done
manually: `return {"success": True, ...}`. -/
def execute_action (registered : String → Bool) (env : StepEnv)
    (step : RWStep) (i : Nat) : ActionOutcome :=
  if registered (step.action_type.getD "default") then env.handlerAt i
  else ActionOutcome.succeeds

/-- Result of `_execute_step_with_retry`: final `status`, the recorded
`attempts` counter, and the sequence of `time.sleep` waits performed
between attempts (in seconds, in order). -/
structure StepResult where
  status : StepStatus
  attempts : Nat
  sleeps : List Nat
deriving DecidableEq, Repr

/-- Body of the `for attempt in range(self.max_retries)` loop of
`_execute_step_with_retry`, at attempt index `i` with `r` iterations
remaining (`i + r = max_retries` at the top call).  Per iteration:
if `needs_approval` holds, consult `_wait_for_approval`; a negative
decision returns status `skipped` immediately.  Then `_execute_action`;
success returns `completed`.  On failure or exception the loop sleeps
`retry_delay` seconds (only when `attempt < max_retries - 1`, i.e.
`0 < r - 1`) and retries.  Exhaustion yields status `failed` with
`attempts` left at the last recorded value. -/
def execStepAux (retry_delay : Nat) (registered : String → Bool)
    (env : StepEnv) (step : RWStep) : Nat → Nat → StepResult
  | i, 0 => ⟨StepStatus.failed, i, []⟩
  | i, r + 1 =>
    if step.needs_approval && !(env.approvalAt i) then
      ⟨StepStatus.skipped, i + 1, []⟩
    else
      match execute_action registered env step i with
      | ActionOutcome.succeeds => ⟨StepStatus.completed, i + 1, []⟩
      | _ =>
        let rest := execStepAux retry_delay registered env step (i + 1) r
        ⟨rest.status, rest.attempts,
          (if 0 < r then [retry_delay] else []) ++ rest.sleeps⟩

/-- Embedding of `RalphWiggumLoop._execute_step_with_retry`. -/
def execStep (max_retries retry_delay : Nat) (registered : String → Bool)
    (env : StepEnv) (step : RWStep) : StepResult :=
  execStepAux retry_delay registered env step 0 max_retries

/-- Terminal partition a finished task record is moved to by
`execute_task`: `self.done` or `self.failed`. -/
inductive Partition
  | done
  | failed
deriving DecidableEq, Repr

/-- Observable outcome of `RalphWiggumLoop.execute_task` on one task:
the plan's step list after the loop (which is also the content persisted
by the final `_save_plan` call, since every iteration overwrites the
same plan file), the `steps_completed` / `steps_total` counters of the
result dict, the result `status`, and the partition the task record was
moved to. -/
structure TaskRun where
  final_steps : List RWStep
  steps_completed : Nat
  steps_total : Nat
  task_status : TaskStatus
  dest : Partition
deriving Repr

/-- Embedding of `RalphWiggumLoop.execute_task` (normal path, no
exception escapes): each plan step `i` is run through
`_execute_step_with_retry` (with its own effect oracle `envAt i`) and
its `status` field is overwritten with the step result's status; then
`completed_steps` is counted over the plan and the task file is renamed
into `Done` when `completed_steps == len(plan["steps"])`, else into
`Failed`. -/
def execute_task (max_retries retry_delay : Nat)
    (registered : String → Bool) (envAt : Nat → StepEnv)
    (steps : List RWStep) : TaskRun :=
  let final_steps := steps.enum.map fun p =>
    { p.2 with
      status := (execStep max_retries retry_delay registered (envAt p.1) p.2).status }
  let completed := final_steps.countP fun s => s.status == StepStatus.completed
  if completed = final_steps.length then
    ⟨final_steps, completed, steps.length, TaskStatus.completed, Partition.done⟩
  else
    ⟨final_steps, completed, steps.length, TaskStatus.failed, Partition.failed⟩

/-! ## Orchestrator (`orchestrator.py`) -/

/-- A parsed task file as consumed by the orchestrator: its file name
and the `priority` frontmatter field, when present. -/
structure OTask where
  name : String
  priority : Option String
deriving DecidableEq, Repr

/-- Charwise ASCII lowercase, modelling Python `str.lower()` (the
priority labels and decision markers are ASCII). -/
def lowerChars (s : String) : List Char := s.toList.map Char.toLower

/-- Embedding of the priority mapping in
`AIEmployeeOrchestrator._parse_task`:
`task.get('priority', 'medium').lower()` is looked up in
`{urgent: 1, high: 2, medium: 3, low: 4}` with default `MEDIUM = 3`
(the `TaskPriority` constants). -/
def priority_num (t : OTask) : Nat :=
  let p := lowerChars (t.priority.getD "medium")
  if p = "urgent".toList then 1
  else if p = "high".toList then 2
  else if p = "medium".toList then 3
  else if p = "low".toList then 4
  else 3

/-- Stable insertion used to model Python's stable `list.sort`: an
element is placed before the first element whose key is `≥` its own, so
equal keys keep their original relative order. -/
def sortInsert (x : OTask) : List OTask → List OTask
  | [] => [x]
  | y :: l =>
    if priority_num x ≤ priority_num y then x :: y :: l
    else y :: sortInsert x l

/-- Embedding of `AIEmployeeOrchestrator.scan_needs_action`: collect the
task files of the `Needs_Action` partition and sort them by
`priority_num` with Python's stable sort
(`tasks.sort(key=lambda x: x.get('priority_num', 999))`). -/
def scan_needs_action : List OTask → List OTask
  | [] => []
  | x :: l => sortInsert x (scan_needs_action l)

/-- Embedding of `AIEmployeeOrchestrator.run_cycle` acting on the
`Needs_Action` partition: scan and sort the tasks, then process only
`tasks[0]` (the highest-priority task), which `process_task` renames out
of `Needs_Action` into `In_Progress`.  Returns the list of tasks
processed this cycle together with the new `Needs_Action` contents. -/
def run_cycle (folder : List OTask) : List OTask × List OTask :=
  match scan_needs_action folder with
  | [] => ([], folder)
  | t :: _ => ([t], folder.filter fun g => g.name ≠ t.name)

/-- Names of the tasks processed by `n` successive `run_cycle` calls,
in processing order. -/
def run_cycles : Nat → List OTask → List String
  | 0, _ => []
  | n + 1, folder =>
    let c := run_cycle folder
    c.1.map OTask.name ++ run_cycles n c.2

/-! ## Error recovery (`error_recovery.py`) -/

/-- Recovery strategies, mirroring the Python `RecoveryStrategy` enum. -/
inductive RecoveryStrategy
  | retry
  | fallback
  | skip
  | alert
  | quarantine
deriving DecidableEq, Repr

/-- Circuit-breaker state of `ErrorRecovery`: `self.error_counts` and
`self.last_error_time` (times as seconds since epoch). -/
structure ERState where
  error_counts : String → Nat
  last_error_time : String → Option Nat

/-- Value assigned in `__init__`: `self.circuit_breaker_threshold = 5`. -/
def circuit_breaker_threshold : Nat := 5

/-- Value assigned in `__init__`:
`self.circuit_breaker_reset = timedelta(minutes=15)`, in seconds. -/
def circuit_breaker_reset : Nat := 900

/-- Embedding of `ErrorRecovery._update_error_count`: if the elapsed
time since the last recorded error strictly exceeds the reset window,
the count is first reset to 0; then the count is incremented and the
last-error time set to `now`.  (Python compares
`now - last > circuit_breaker_reset`; for `now < last` the negative
timedelta fails the comparison just as truncated `Nat` subtraction
does.) -/
def update_error_count (st : ERState) (op : String) (now : Nat) : ERState :=
  let base :=
    match st.last_error_time op with
    | some t => if circuit_breaker_reset < now - t then 0 else st.error_counts op
    | none => st.error_counts op
  { error_counts := fun k => if k = op then base + 1 else st.error_counts k
    last_error_time := fun k => if k = op then some now else st.last_error_time k }

/-- Embedding of `ErrorRecovery._is_circuit_open`:
`self.error_counts.get(operation, 0) >= self.circuit_breaker_threshold`. -/
def is_circuit_open (st : ERState) (op : String) : Bool :=
  circuit_breaker_threshold ≤ st.error_counts op

/-- Observable outcome of one `handle_error` call relevant to the
circuit breaker: the `strategy` field of the returned result dict and
whether `_create_alert` wrote an alert artifact.  (The internal effects
of the individual strategy handlers — retries, fallbacks, file moves —
are delegated to collaborators and not part of the checked claim.) -/
structure HandleResult where
  strategy : RecoveryStrategy
  alerted : Bool
deriving DecidableEq, Repr

/-- Embedding of `ErrorRecovery.handle_error`: the error is counted
first (`_update_error_count`), then the circuit breaker is checked; if
open, the result's strategy is overwritten with `ALERT` and
`_create_alert` runs, short-circuiting the requested strategy.
Otherwise the requested strategy is dispatched (only
`RecoveryStrategy.alert` itself creates an alert artifact). -/
def handle_error (st : ERState) (op : String) (strategy : RecoveryStrategy)
    (now : Nat) : ERState × HandleResult :=
  let st1 := update_error_count st op now
  if is_circuit_open st1 op then (st1, ⟨RecoveryStrategy.alert, true⟩)
  else (st1, ⟨strategy, decide (strategy = RecoveryStrategy.alert)⟩)

/-- Embedding of `ErrorRecovery.reset_circuit`:
`self.error_counts[operation] = 0`. -/
def reset_circuit (st : ERState) (op : String) : ERState :=
  { st with error_counts := fun k => if k = op then 0 else st.error_counts k }

/-! ## Scheduled tasks (`scheduled_tasks.py`) -/

/-- Hour of day of an epoch-seconds instant (Python `now.hour` for a
naive datetime modelled on the epoch timeline). -/
def hourOf (now : Nat) : Nat := now / 3600 % 24

/-- Weekday of an epoch-seconds instant, Monday = 0 as in Python
`now.weekday()` (1970-01-01 was a Thursday, weekday 3). -/
def weekdayOf (now : Nat) : Nat := (now / 86400 + 3) % 7

/-- Scheduler-state view used by `should_run`/`run_task`: the persisted
`self.state` map restricted to its `<task>_last_run` and
`<task>_last_result` entries. -/
structure SchedState where
  last_run : String → Option Nat
  last_result : String → Option String

/-- Embedding of `ScheduledTasksRunner.should_run`.  `tasks` maps a task
name to its schedule string (`none` when not registered).  A missing
last-run entry is `datetime.min`, modelled as epoch 0.  All comparisons
are the source's: `total_seconds() >= bound` per schedule, plus the
hour/weekday gates for `daily_6pm` and `weekly_monday_7am` (whose
`.days >= 6` uses timedelta floor division by a day). -/
def should_run (tasks : String → Option String)
    (last_run : String → Option Nat) (name : String) (now : Nat) : Bool :=
  match tasks name with
  | none => false
  | some schedule =>
    let last := (last_run name).getD 0
    if schedule = "every_5_minutes" then decide (300 ≤ now - last)
    else if schedule = "every_10_minutes" then decide (600 ≤ now - last)
    else if schedule = "hourly" ∨ schedule = "every_hour" then
      decide (3600 ≤ now - last)
    else if schedule = "daily_6pm" then
      decide (hourOf now = 18 ∧ 82800 ≤ now - last)
    else if schedule = "weekly_monday_7am" then
      decide (weekdayOf now = 0 ∧ hourOf now = 7 ∧ 6 ≤ (now - last) / 86400)
    else false

/-- Outcome of invoking the bound action `task.func()`: it returns
normally or raises. -/
inductive SchedOutcome
  | success
  | raises
deriving DecidableEq, Repr

/-- Result view of `run_task`: the `success` flag of the returned dict
and whether the bound action was actually invoked. -/
structure SchedRunResult where
  ok : Bool
  ran : Bool
deriving DecidableEq, Repr

/-- Embedding of `ScheduledTasksRunner.run_task`: unknown task or
not-due (without `force`) short-circuit without running.  On a normal
return, `state[f'{name}_last_run'] = start_time` and the last result is
`'success'`.  On an exception, only `state[f'{name}_last_result']` is
written — the `_last_run` entry is left untouched. -/
def run_task (tasks : String → Option String) (st : SchedState)
    (name : String) (force : Bool) (outcome : SchedOutcome) (now : Nat) :
    SchedState × SchedRunResult :=
  if (tasks name).isNone then (st, ⟨false, false⟩)
  else if !force && !(should_run tasks st.last_run name now) then
    (st, ⟨false, false⟩)
  else
    match outcome with
    | SchedOutcome.success =>
      ({ last_run := fun k => if k = name then some now else st.last_run k
         last_result := fun k => if k = name then some "success" else st.last_result k },
       ⟨true, true⟩)
    | SchedOutcome.raises =>
      ({ st with
         last_result := fun k => if k = name then some "error" else st.last_result k },
       ⟨false, true⟩)

/-! ## Approval workflow (`approval_workflow.py`)

`_detect_approval_status` lowercases the content and probes it with
`re.search` for nine fixed patterns.  Each pattern is a literal/`\s*`/
optional-`*` sequence, so it is embedded as a deterministic matcher
over the character list: greedy whitespace skipping is exact here
because every token following a `\s*` in these patterns is a
non-whitespace character. -/

/-- Approval statuses, mirroring the Python `ApprovalStatus` enum. -/
inductive ApprovalStatus
  | pendingStatus
  | approved
  | rejected
  | needsEdit
deriving DecidableEq, Repr

/-- Whitespace as matched by the patterns' `\s` (ASCII forms). -/
def isWS (c : Char) : Bool :=
  c = ' ' || c = '\t' || c = '\n' || c = '\r' || c = '\x0b' || c = '\x0c'

/-- Match a literal character sequence, returning the remainder. -/
def stripLit : List Char → List Char → Option (List Char)
  | [], cs => some cs
  | _ :: _, [] => none
  | l :: ls, c :: cs => if c = l then stripLit ls cs else none

/-- Consume `\s*` (greedy). -/
def skipWS : List Char → List Char
  | [] => []
  | c :: cs => if isWS c then skipWS cs else c :: cs

/-- Consume `\*?` (one optional literal star). -/
def skipStar : List Char → List Char
  | [] => []
  | c :: cs => if c = '*' then cs else c :: cs

/-- Matcher for `\[x\]\s*\*?\*?WORD` at the current position (the
trailing `\*?\*?` of the source patterns can always match empty and is
irrelevant to `re.search`). -/
def matchCheckbox (word : List Char) (cs : List Char) : Bool :=
  match stripLit ['[', 'x', ']'] cs with
  | none => false
  | some cs => (stripLit word (skipStar (skipStar (skipWS cs)))).isSome

/-- Matcher for `\[x\]\s*EMOJI\s*WORD` at the current position. -/
def matchEmoji (emoji word : List Char) (cs : List Char) : Bool :=
  match stripLit ['[', 'x', ']'] cs with
  | none => false
  | some cs =>
    match stripLit emoji (skipWS cs) with
    | none => false
    | some cs => (stripLit word (skipWS cs)).isSome

/-- Matcher for `status:\s*WORD` at the current position. -/
def matchStatusField (word : List Char) (cs : List Char) : Bool :=
  match stripLit ['s', 't', 'a', 't', 'u', 's', ':'] cs with
  | none => false
  | some cs => (stripLit word (skipWS cs)).isSome

/-- `re.search` semantics: the matcher fires at some position. -/
def searchAny (p : List Char → Bool) : List Char → Bool
  | [] => p []
  | c :: cs => p (c :: cs) || searchAny p cs

/-- The three `approve_patterns` of `_detect_approval_status`. -/
def hasApproveMarker (cl : List Char) : Bool :=
  searchAny (matchCheckbox "approve".toList) cl
    || searchAny (matchEmoji "✅".toList "approve".toList) cl
    || searchAny (matchStatusField "approved".toList) cl

/-- The three `reject_patterns` of `_detect_approval_status`. -/
def hasRejectMarker (cl : List Char) : Bool :=
  searchAny (matchCheckbox "reject".toList) cl
    || searchAny (matchEmoji "❌".toList "reject".toList) cl
    || searchAny (matchStatusField "rejected".toList) cl

/-- The three `edit_patterns` of `_detect_approval_status` (the emoji
`✏️` is the pencil codepoint followed by a variation selector, exactly
as written in the source pattern). -/
def hasEditMarker (cl : List Char) : Bool :=
  searchAny (matchCheckbox "edit".toList) cl
    || searchAny (matchEmoji ['✏', '️'] "edit".toList) cl
    || searchAny (matchStatusField "needs_edit".toList) cl

/-- Embedding of `ApprovalWorkflow._detect_approval_status`: lowercase
the content, then probe the approve patterns, then the reject patterns,
then the edit patterns, in source order, returning at the first group
that matches; otherwise `PENDING`. -/
def detect_approval_status (content : String) : ApprovalStatus :=
  let cl := lowerChars content
  if hasApproveMarker cl then ApprovalStatus.approved
  else if hasRejectMarker cl then ApprovalStatus.rejected
  else if hasEditMarker cl then ApprovalStatus.needsEdit
  else ApprovalStatus.pendingStatus

/-- Embedding of `ApprovalWorkflow._extract_frontmatter_value(content,
'type')`: `re.search(r'^type:\s*(.+)$', content, re.MULTILINE)` — the
first line starting with `type:` whose remainder (after greedy
whitespace, with one character given back when the remainder is all
whitespace) is nonempty, stripped.  (`\s*` spanning a line break — a
`type:` key with its value on the next line — is not modelled; no
artifact produced by this system writes such a header.) -/
def extract_type : List String → Option String
  | [] => none
  | line :: rest =>
    match stripLit ['t', 'y', 'p', 'e', ':'] line.toList with
    | some cs =>
      let v := skipWS cs
      if v.isEmpty then
        if cs.isEmpty then extract_type rest
        else some ""
      else some (String.mk v).trimRight
    | none => extract_type rest

/-- State of the approval workflow over the vault partitions: the
`Pending_Approval` folder as (file name, content) pairs, the names
present in `Approved`, `Done` and `Rejected`, the per-run
`self.processed_files` set, and the names for which a registered action
handler has been invoked (most recent first — a call counter per
artifact). -/
structure AWState where
  pending : List (String × String)
  approvedF : List String
  doneF : List String
  rejectedF : List String
  processed : List String
  handlerCalls : List String
deriving DecidableEq, Repr

/-- Body of the `for filepath in pending_files` loop of
`check_for_approvals` for one file: skip it when its name is in
`processed_files`; otherwise dispatch on `_detect_approval_status`.
`_handle_approval` moves the file to `Approved`, invokes the registered
handler for the frontmatter `type` when there is one (success assumed,
as in the claim's scenario) and then moves the file on to `Done`, and
records the name in `processed_files`.  `_handle_rejection` writes the
annotated copy into `Rejected`, unlinks the pending file and records
the name.  `NEEDS_EDIT` only logs and `PENDING` does nothing. -/
def processFile (handlers : String → Bool) (s : AWState)
    (f : String × String) : AWState :=
  if s.processed.contains f.1 then s
  else
    match detect_approval_status f.2 with
    | ApprovalStatus.approved =>
      let handled :=
        match extract_type (f.2.splitOn "\n") with
        | some t => handlers t
        | none => false
      if handled then
        { s with
          pending := s.pending.filter fun g => g.1 ≠ f.1
          doneF := f.1 :: s.doneF
          processed := f.1 :: s.processed
          handlerCalls := f.1 :: s.handlerCalls }
      else
        { s with
          pending := s.pending.filter fun g => g.1 ≠ f.1
          approvedF := f.1 :: s.approvedF
          processed := f.1 :: s.processed }
    | ApprovalStatus.rejected =>
      { s with
        pending := s.pending.filter fun g => g.1 ≠ f.1
        rejectedF := f.1 :: s.rejectedF
        processed := f.1 :: s.processed }
    | ApprovalStatus.needsEdit => s
    | ApprovalStatus.pendingStatus => s

/-- Embedding of `ApprovalWorkflow.check_for_approvals`: snapshot the
pending folder (`pending_files = list(self.pending_folder.glob(...))`)
and run the per-file body over it. -/
def check_for_approvals (handlers : String → Bool) (s : AWState) : AWState :=
  s.pending.foldl (processFile handlers) s

/-! ## Audit logger (`audit_logger.py`)

The SHA-256 digest truncated to 16 hex characters is modelled as an
arbitrary function `h : String → String` of the serialized event; every
property checked here holds for any such function.  `json.dumps(...,
sort_keys=True)` over the event dict minus its `checksum` key is
embedded as a concrete serializer that writes the remaining seven keys
in their sorted order (`actor < data < event_id < event_type < level <
session_id < timestamp`). -/

/-- The fields of a journal entry other than `checksum`, exactly the
keys `log` puts into the event dict. -/
structure EventCore where
  event_id : String
  timestamp : String
  session_id : String
  event_type : String
  level : String
  actor : String
  data : List (String × String)
deriving DecidableEq, Repr

/-- A journal entry as written to the `.jsonl` audit file. -/
structure AuditEvent where
  core : EventCore
  checksum : String
deriving DecidableEq, Repr

/-- JSON string literal (the payload strings used here need no
escaping). -/
def jsonStr (s : String) : String := "\"" ++ s ++ "\""

/-- JSON object from already-rendered `"key": value` members. -/
def jsonObj (members : List String) : String :=
  "\x7b" ++ String.intercalate ", " members ++ "\x7d"

/-- Embedding of the serialization inside `_calculate_checksum`:
`json.dumps(event_copy, sort_keys=True)` where `event_copy` is the
event without its `checksum` key. -/
def dumps_sorted (c : EventCore) : String :=
  jsonObj
    [jsonStr "actor" ++ ": " ++ jsonStr c.actor,
     jsonStr "data" ++ ": "
       ++ jsonObj (c.data.map fun p => jsonStr p.1 ++ ": " ++ jsonStr p.2),
     jsonStr "event_id" ++ ": " ++ jsonStr c.event_id,
     jsonStr "event_type" ++ ": " ++ jsonStr c.event_type,
     jsonStr "level" ++ ": " ++ jsonStr c.level,
     jsonStr "session_id" ++ ": " ++ jsonStr c.session_id,
     jsonStr "timestamp" ++ ": " ++ jsonStr c.timestamp]

/-- Embedding of `AuditLogger._calculate_checksum`: drop the `checksum`
key, serialize with sorted keys and hash (`h` stands for
`sha256(...).hexdigest()[:16]`). -/
def calculate_checksum (h : String → String) (e : AuditEvent) : String :=
  h (dumps_sorted e.core)

/-- Embedding of the journal-entry construction in `AuditLogger.log`:
the event is assembled with `checksum: None` and then
`event["checksum"] = self._calculate_checksum(event)` (the `None`
placeholder is excluded from the computation either way). -/
def logEvent (h : String → String) (c : EventCore) : AuditEvent :=
  ⟨c, h (dumps_sorted c)⟩

/-- Result dict of `verify_log_integrity`. -/
structure IntegrityResult where
  total_events : Nat
  valid : Nat
  invalid : Nat
  integrity : String
deriving DecidableEq, Repr

/-- Embedding of `AuditLogger.verify_log_integrity` over an existing
audit file read back as `entries`: per entry, recompute the checksum
with `_calculate_checksum` and compare with the stored one, tallying
`valid`/`invalid`; `integrity` is `"valid"` iff `invalid == 0`, else
`"compromised"`. -/
def verify_log_integrity (h : String → String) (entries : List AuditEvent) :
    IntegrityResult :=
  let valid := entries.countP fun e => e.checksum == calculate_checksum h e
  let invalid := entries.countP fun e => !(e.checksum == calculate_checksum h e)
  ⟨entries.length, valid, invalid,
    if invalid = 0 then "valid" else "compromised"⟩

/-! ## Concrete fixtures

Closed instances used to instantiate the theorems below: an empty
handler registry, a registry with only `send_email`, approval/handler
oracles, and the plan steps generated by
`RalphWiggumLoop._generate_steps` for an email task. -/

/-- Empty handler registry: no action type is registered. -/
def regFalse : String → Bool := fun _ => false

/-- Registry containing exactly a `send_email` handler. -/
def regSendEmail : String → Bool := fun t => t == "send_email"

/-- Oracle: every approval wait returns approved, every handler call
succeeds. -/
def envApproveSucceed : StepEnv := ⟨fun _ => true, fun _ => ActionOutcome.succeeds⟩

/-- Oracle: every approval wait returns approved, every handler call
fails. -/
def envApproveFail : StepEnv := ⟨fun _ => true, fun _ => ActionOutcome.fails⟩

/-- Oracle: every approval wait returns a negative decision. -/
def envDenySucceed : StepEnv := ⟨fun _ => false, fun _ => ActionOutcome.succeeds⟩

/-- The `Approve` step of the email plan template (`needs_approval`,
no `action_type`). -/
def approveStep : RWStep :=
  ⟨"Approve", "Get human approval", true, none, StepStatus.pending⟩

/-- The `Send` step of the email plan template
(`action_type: send_email`). -/
def sendStep : RWStep :=
  ⟨"Send", "Send the email", false, some "send_email", StepStatus.pending⟩

/-- The `Analyze` step of the generic plan template (no approval, no
`action_type`). -/
def analyzeStep : RWStep :=
  ⟨"Analyze", "Read and understand content", false, none, StepStatus.pending⟩

/-- Scenario E of the spec: ten tasks enqueued with priorities
`[low, urgent, medium, high, urgent, low, medium, high, urgent, low]`,
named `T0`…`T9` in enqueue order. -/
def scenarioTasks : List OTask :=
  [⟨"T0", some "low"⟩, ⟨"T1", some "urgent"⟩, ⟨"T2", some "medium"⟩,
   ⟨"T3", some "high"⟩, ⟨"T4", some "urgent"⟩, ⟨"T5", some "low"⟩,
   ⟨"T6", some "medium"⟩, ⟨"T7", some "high"⟩, ⟨"T8", some "urgent"⟩,
   ⟨"T9", some "low"⟩]

/-- Scheduler registry holding the default `email_check` task
(`every_5_minutes`). -/
def tasksEmailCheck : String → Option String :=
  fun n => if n = "email_check" then some "every_5_minutes" else none

/-- Fresh scheduler state: no task has ever run. -/
def stFresh : SchedState := ⟨fun _ => none, fun _ => none⟩

/-- Circuit-breaker state in which operation `gmail_fetch` has 5
recorded errors, the last at t = 100 s. -/
def stGmail : ERState :=
  ⟨fun k => if k = "gmail_fetch" then 5 else 0,
   fun k => if k = "gmail_fetch" then some 100 else none⟩

/-- Inert files for one `check_for_approvals` pass: files the per-file
body leaves the whole state unchanged on — either already recorded in
`processed_files`, or carrying no decisive marker (`PENDING` keeps the
file untouched, `NEEDS_EDIT` only logs). -/
def awInert (s : AWState) (f : String × String) : Prop :=
  s.processed.contains f.1 = true ∨
    detect_approval_status f.2 = ApprovalStatus.pendingStatus ∨
    detect_approval_status f.2 = ApprovalStatus.needsEdit

/-! ## Properties of the step retry loop -/

/-- Every run of `_execute_step_with_retry` ends in one of the three
terminal statuses `completed`, `failed` or `skipped`. -/
theorem execStepAux_status_cases (rd : Nat) (registered : String → Bool)
    (env : StepEnv) (step : RWStep) :
    ∀ r i, (execStepAux rd registered env step i r).status = StepStatus.completed ∨
      (execStepAux rd registered env step i r).status = StepStatus.failed ∨
      (execStepAux rd registered env step i r).status = StepStatus.skipped := by
  intro r
  induction r with
  | zero => intro i; simp [execStepAux]
  | succ r ih =>
    intro i
    by_cases hc : (step.needs_approval && !(env.approvalAt i)) = true
    · simp [execStepAux, hc]
    · cases hact : execute_action registered env step i <;>
        simp [execStepAux, hc, hact] <;> exact ih (i + 1)

/-- In a run of the loop on a `needs_approval` step, every approval
decision consulted up to the recorded number of attempts was positive
unless the run ended `skipped`, and a `completed` run consulted a
positive decision at some attempt below `i + r`. -/
theorem execStepAux_approval (rd : Nat) (registered : String → Bool)
    (env : StepEnv) (step : RWStep) (h : step.needs_approval = true) :
    ∀ r i,
      ((execStepAux rd registered env step i r).status = StepStatus.completed →
        ∃ j, i ≤ j ∧ j < i + r ∧ env.approvalAt j = true) ∧
      ((execStepAux rd registered env step i r).status ≠ StepStatus.skipped →
        ∀ j, i ≤ j → j < (execStepAux rd registered env step i r).attempts →
          env.approvalAt j = true) := by
  intro r
  induction r with
  | zero =>
    intro i
    refine ⟨by simp [execStepAux], ?_⟩
    intro _ j hij hj
    simp [execStepAux] at hj
    omega
  | succ r ih =>
    intro i
    cases happ : env.approvalAt i with
    | false =>
      have hc : (step.needs_approval && !(env.approvalAt i)) = true := by
        simp [h, happ]
      refine ⟨by simp [execStepAux, hc], ?_⟩
      intro hne
      exact absurd (by simp [execStepAux, hc]) hne
    | true =>
      have hc : (step.needs_approval && !(env.approvalAt i)) = false := by
        simp [h, happ]
      cases hact : execute_action registered env step i with
      | succeeds =>
        refine ⟨?_, ?_⟩
        · intro _
          exact ⟨i, le_refl i, by omega, happ⟩
        · intro _ j hij hj
          simp [execStepAux, hc, hact] at hj
          have : j = i := by omega
          rw [this]; exact happ
      | fails =>
        refine ⟨?_, ?_⟩
        · intro hcomp
          simp [execStepAux, hc, hact] at hcomp
          obtain ⟨j, h1, h2, h3⟩ := (ih (i + 1)).1 hcomp
          exact ⟨j, by omega, by omega, h3⟩
        · intro hne j hij hj
          simp [execStepAux, hc, hact] at hne hj
          rcases Nat.eq_or_lt_of_le hij with heq | hlt
          · rw [← heq]; exact happ
          · exact (ih (i + 1)).2 hne j hlt hj
      | raises =>
        refine ⟨?_, ?_⟩
        · intro hcomp
          simp [execStepAux, hc, hact] at hcomp
          obtain ⟨j, h1, h2, h3⟩ := (ih (i + 1)).1 hcomp
          exact ⟨j, by omega, by omega, h3⟩
        · intro hne j hij hj
          simp [execStepAux, hc, hact] at hne hj
          rcases Nat.eq_or_lt_of_le hij with heq | hlt
          · rw [← heq]; exact happ
          · exact (ih (i + 1)).2 hne j hlt hj

/-- Claim C1: in every plan executed by `RalphWiggumLoop.execute_task`,
a step whose `needs_approval` flag is true never ends with status
`completed` unless `_wait_for_approval` returned `approved=True` for it
at some consulted attempt; and whenever the run did not end `skipped`,
every consulted decision was positive — equivalently, a negative
decision makes the step end `skipped`. -/
theorem no_bypass_invariant (max_retries retry_delay : Nat)
    (registered : String → Bool) (env : StepEnv) (step : RWStep)
    (h : step.needs_approval = true) :
    ((execStep max_retries retry_delay registered env step).status = StepStatus.completed →
      ∃ j, j < max_retries ∧ env.approvalAt j = true) ∧
    ((execStep max_retries retry_delay registered env step).status ≠ StepStatus.skipped →
      ∀ j, j < (execStep max_retries retry_delay registered env step).attempts →
        env.approvalAt j = true) := by
  have := execStepAux_approval retry_delay registered env step h max_retries 0
  exact ⟨fun hcomp => by
      obtain ⟨j, _, h2, h3⟩ := this.1 hcomp
      exact ⟨j, by omega, h3⟩,
    fun hne j hj => this.2 hne j (Nat.zero_le j) hj⟩

/-- Witness for C1: the email plan's `Approve` step under an oracle
that approves; the step completes and an approved decision was indeed
observed. -/
theorem no_bypass_invariant_witness :
    approveStep.needs_approval = true ∧
    (((execStep 3 60 regFalse envApproveSucceed approveStep).status = StepStatus.completed →
      ∃ j, j < 3 ∧ envApproveSucceed.approvalAt j = true) ∧
    ((execStep 3 60 regFalse envApproveSucceed approveStep).status ≠ StepStatus.skipped →
      ∀ j, j < (execStep 3 60 regFalse envApproveSucceed approveStep).attempts →
        envApproveSucceed.approvalAt j = true)) :=
  ⟨rfl, no_bypass_invariant 3 60 regFalse envApproveSucceed approveStep rfl⟩

/-- Every wait the retry loop performs is the constant `retry_delay`:
the loop body executes `time.sleep(self.retry_delay)` before each
retry. -/
theorem execStepAux_sleeps_const (rd : Nat) (registered : String → Bool)
    (env : StepEnv) (step : RWStep) :
    ∀ r i, ∀ d ∈ (execStepAux rd registered env step i r).sleeps, d = rd := by
  intro r
  induction r with
  | zero => intro i; simp [execStepAux]
  | succ r ih =>
    intro i
    by_cases hc : (step.needs_approval && !(env.approvalAt i)) = true
    · simp [execStepAux, hc]
    · cases hact : execute_action registered env step i <;>
        simp [execStepAux, hc, hact]
      · rcases r with _ | r
        · simpa using ih (i + 1)
        · intro d hd
          rcases hd with hd | hd
          · exact hd.2
          · exact ih (i + 1) d hd
      · rcases r with _ | r
        · simpa using ih (i + 1)
        · intro d hd
          rcases hd with hd | hd
          · exact hd.2
          · exact ih (i + 1) d hd

/-- Counterexample to C3: a `send_email` step whose registered handler
always fails, with the default configuration `max_retries = 3`,
`retry_delay = 60`.  The two waits inserted before retry attempts 2 and
3 are both 60 s — not the exponential sequence `60·2^0, 60·2^1` the
claim requires, and not strictly increasing. -/
theorem backoff_counterexample :
    (execStep 3 60 regSendEmail envApproveFail sendStep).sleeps = [60, 60] ∧
    (execStep 3 60 regSendEmail envApproveFail sendStep).sleeps ≠ [60 * 2 ^ 0, 60 * 2 ^ 1] ∧
    ¬ (60 * 2 ^ 0 < 60 * 2 ^ 0) := by
  refine ⟨by decide, by decide, by decide⟩

/-- Claim C3 (amended): in `RalphWiggumLoop._execute_step_with_retry`
the wait inserted before every retry attempt is the constant
`retry_delay` (default 60 s); successive retry delays are all equal,
not exponentially increasing. -/
theorem backoff_constant_delay (max_retries retry_delay : Nat)
    (registered : String → Bool) (env : StepEnv) (step : RWStep) :
    ∀ d ∈ (execStep max_retries retry_delay registered env step).sleeps,
      d = retry_delay :=
  execStepAux_sleeps_const retry_delay registered env step max_retries 0

/-- Witness for C3 (amended): in the failing `send_email` run the first
recorded wait is 60 = `retry_delay`. -/
theorem backoff_constant_delay_witness :
    60 ∈ (execStep 3 60 regSendEmail envApproveFail sendStep).sleeps ∧ 60 = 60 :=
  ⟨by decide, backoff_constant_delay 3 60 regSendEmail envApproveFail sendStep 60 (by decide)⟩

/-- Counterexample to C10: the email plan's `Approve` step has no
registered `action_type` (so `_execute_action` would succeed), yet when
the human denies the approval the step ends `skipped` on its first
attempt — it does not reach `completed`. -/
theorem default_handler_counterexample :
    execute_action regFalse envDenySucceed approveStep 0 = ActionOutcome.succeeds ∧
    (execStep 3 60 regFalse envDenySucceed approveStep).status = StepStatus.skipped ∧
    (execStep 3 60 regFalse envDenySucceed approveStep).status ≠ StepStatus.completed := by
  refine ⟨by decide, by decide, by decide⟩

/-- Claim C10 (amended): for every step whose
`step.get("action_type", "default")` has no registered handler,
`_execute_action` returns success; consequently (when at least one
attempt is allowed) a step that does not request approval — or whose
approval wait returns approved — ends `completed` on its first attempt
with no external action performed, while a `needs_approval` step whose
approval wait returns a negative decision ends `skipped` instead. -/
theorem default_handler_completes (max_retries retry_delay : Nat)
    (registered : String → Bool) (env : StepEnv) (step : RWStep)
    (hreg : registered (step.action_type.getD "default") = false)
    (hmr : 0 < max_retries) :
    (∀ i, execute_action registered env step i = ActionOutcome.succeeds) ∧
    (step.needs_approval = false ∨ env.approvalAt 0 = true →
      (execStep max_retries retry_delay registered env step).status = StepStatus.completed ∧
      (execStep max_retries retry_delay registered env step).attempts = 1) ∧
    (step.needs_approval = true → env.approvalAt 0 = false →
      (execStep max_retries retry_delay registered env step).status = StepStatus.skipped ∧
      (execStep max_retries retry_delay registered env step).attempts = 1) := by
  have hact : ∀ i, execute_action registered env step i = ActionOutcome.succeeds := by
    intro i; simp [execute_action, hreg]
  obtain ⟨m, rfl⟩ : ∃ m, max_retries = m + 1 :=
    ⟨max_retries - 1, by omega⟩
  refine ⟨hact, ?_, ?_⟩
  · rintro (hna | happ)
    · have hc : (step.needs_approval && !(env.approvalAt 0)) = false := by
        simp [hna]
      constructor <;> simp [execStep, execStepAux, hc, hact 0]
    · have hc : (step.needs_approval && !(env.approvalAt 0)) = false := by
        simp [happ]
      constructor <;> simp [execStep, execStepAux, hc, hact 0]
  · intro hna happ
    have hc : (step.needs_approval && !(env.approvalAt 0)) = true := by
      simp [hna, happ]
    constructor <;> simp [execStep, execStepAux, hc]

/-- Witness for C10 (amended): the generic plan's `Analyze` step with
an empty handler registry completes on its first attempt. -/
theorem default_handler_completes_witness :
    regFalse (analyzeStep.action_type.getD "default") = false ∧ 0 < 3 ∧
    ((∀ i, execute_action regFalse envApproveSucceed analyzeStep i = ActionOutcome.succeeds) ∧
    (analyzeStep.needs_approval = false ∨ envApproveSucceed.approvalAt 0 = true →
      (execStep 3 60 regFalse envApproveSucceed analyzeStep).status = StepStatus.completed ∧
      (execStep 3 60 regFalse envApproveSucceed analyzeStep).attempts = 1) ∧
    (analyzeStep.needs_approval = true → envApproveSucceed.approvalAt 0 = false →
      (execStep 3 60 regFalse envApproveSucceed analyzeStep).status = StepStatus.skipped ∧
      (execStep 3 60 regFalse envApproveSucceed analyzeStep).attempts = 1)) :=
  ⟨rfl, by omega,
    default_handler_completes 3 60 regFalse envApproveSucceed analyzeStep rfl (by omega)⟩

/-- Claim C2: `execute_task` moves the task record to the `Done`
partition iff every step of its plan ended `completed`, and otherwise
to the `Failed` partition; the statuses persisted in the final plan are
exactly the per-step results of the retry loop, each one of
`completed`, `failed` or `skipped`. -/
theorem task_partition_iff (max_retries retry_delay : Nat)
    (registered : String → Bool) (envAt : Nat → StepEnv)
    (steps : List RWStep) :
    ((execute_task max_retries retry_delay registered envAt steps).dest = Partition.done ↔
      ∀ s ∈ (execute_task max_retries retry_delay registered envAt steps).final_steps,
        s.status = StepStatus.completed) ∧
    ((execute_task max_retries retry_delay registered envAt steps).dest = Partition.done ∨
      (execute_task max_retries retry_delay registered envAt steps).dest = Partition.failed) ∧
    (execute_task max_retries retry_delay registered envAt steps).final_steps.map RWStep.status
      = steps.enum.map
          (fun p => (execStep max_retries retry_delay registered (envAt p.1) p.2).status) ∧
    (∀ s ∈ (execute_task max_retries retry_delay registered envAt steps).final_steps,
      s.status = StepStatus.completed ∨ s.status = StepStatus.failed ∨
        s.status = StepStatus.skipped) := by
  set fs := steps.enum.map fun p =>
    { p.2 with
      status := (execStep max_retries retry_delay registered (envAt p.1) p.2).status }
    with hfs
  have hrun : execute_task max_retries retry_delay registered envAt steps =
      if fs.countP (fun s => s.status == StepStatus.completed) = fs.length then
        ⟨fs, fs.countP (fun s => s.status == StepStatus.completed), steps.length,
          TaskStatus.completed, Partition.done⟩
      else
        ⟨fs, fs.countP (fun s => s.status == StepStatus.completed), steps.length,
          TaskStatus.failed, Partition.failed⟩ := by
    rw [execute_task]
  have hsteps :
      (execute_task max_retries retry_delay registered envAt steps).final_steps = fs := by
    rw [hrun]; split <;> rfl
  refine ⟨?_, ?_, ?_, ?_⟩
  · rw [hsteps]
    by_cases hall : fs.countP (fun s => s.status == StepStatus.completed) = fs.length
    · have hdest :
          (execute_task max_retries retry_delay registered envAt steps).dest =
            Partition.done := by
        rw [hrun, if_pos hall]
      rw [hdest]
      simp only [true_iff]
      intro s hs
      have := List.countP_eq_length.mp hall s hs
      simpa using this
    · have hdest :
          (execute_task max_retries retry_delay registered envAt steps).dest =
            Partition.failed := by
        rw [hrun, if_neg hall]
      rw [hdest]
      constructor
      · intro hcontra; exact absurd hcontra (by simp)
      · intro hall2
        exact absurd (List.countP_eq_length.mpr fun s hs => by simp [hall2 s hs]) hall
  · rw [hrun]; split
    · exact Or.inl rfl
    · exact Or.inr rfl
  · rw [hsteps, hfs, List.map_map]
    rfl
  · rw [hsteps, hfs]
    intro s hs
    obtain ⟨p, _, rfl⟩ := List.mem_map.mp hs
    exact execStepAux_status_cases retry_delay registered (envAt p.1) p.2 max_retries 0

/-- Claim C4: once at least `circuit_breaker_threshold` (5) errors are
recorded for an operation key `K`, any subsequent `handle_error` call
for `K` arriving within the reset window of the last recorded error —
whatever strategy it requests, `RETRY` included — has its strategy
forced to `ALERT` and writes an alert artifact.  The forcing ends
lazily: a call arriving after the window elapses has its count reset to
1 and its requested strategy honoured, and likewise any call after a
manual `reset_circuit(K)`. -/
theorem circuit_breaker_forced_alert (st : ERState) (K : String)
    (strat : RecoveryStrategy) (now t : Nat)
    (hlast : st.last_error_time K = some t)
    (hcount : circuit_breaker_threshold ≤ st.error_counts K) :
    (now - t ≤ circuit_breaker_reset →
      (handle_error st K strat now).2 = ⟨RecoveryStrategy.alert, true⟩) ∧
    (circuit_breaker_reset < now - t →
      (handle_error st K strat now).1.error_counts K = 1 ∧
      (handle_error st K strat now).2.strategy = strat) ∧
    (∀ now2,
      (handle_error (reset_circuit st K) K strat now2).1.error_counts K = 1 ∧
      (handle_error (reset_circuit st K) K strat now2).2.strategy = strat) := by
  refine ⟨?_, ?_, ?_⟩
  · intro hwin
    have hnotlt : ¬ circuit_breaker_reset < now - t := by omega
    have hbase : (update_error_count st K now).error_counts K
        = st.error_counts K + 1 := by
      simp [update_error_count, hlast, hnotlt]
    have hopen : is_circuit_open (update_error_count st K now) K = true := by
      simp only [is_circuit_open, hbase, decide_eq_true_eq]
      omega
    simp [handle_error, hopen]
  · intro hwin
    have hbase : (update_error_count st K now).error_counts K = 1 := by
      simp [update_error_count, hlast, hwin]
    have hopen : is_circuit_open (update_error_count st K now) K = false := by
      simp [is_circuit_open, hbase, circuit_breaker_threshold]
    exact ⟨by simp [handle_error, hopen, hbase], by simp [handle_error, hopen]⟩
  · intro now2
    have hzero : (reset_circuit st K).error_counts K = 0 := by
      simp [reset_circuit]
    have hbase :
        (update_error_count (reset_circuit st K) K now2).error_counts K = 1 := by
      cases hl : (reset_circuit st K).last_error_time K with
      | none => simp [update_error_count, hl, hzero]
      | some t2 => simp [update_error_count, hl, hzero]
    have hopen : is_circuit_open (update_error_count (reset_circuit st K) K now2) K
        = false := by
      simp [is_circuit_open, hbase, circuit_breaker_threshold]
    exact ⟨by simp [handle_error, hopen, hbase], by simp [handle_error, hopen]⟩

/-- Witness for C4: operation `gmail_fetch` with 5 recorded errors at
t = 100 s; a `RETRY` request at t = 200 s is forced to `ALERT`, a
request at t = 2000 s (window elapsed) and a request after a manual
reset are honoured. -/
theorem circuit_breaker_forced_alert_witness :
    stGmail.last_error_time "gmail_fetch" = some 100 ∧
    circuit_breaker_threshold ≤ stGmail.error_counts "gmail_fetch" ∧
    ((200 - 100 ≤ circuit_breaker_reset →
      (handle_error stGmail "gmail_fetch" RecoveryStrategy.retry 200).2
        = ⟨RecoveryStrategy.alert, true⟩) ∧
    (circuit_breaker_reset < 200 - 100 →
      (handle_error stGmail "gmail_fetch" RecoveryStrategy.retry 200).1.error_counts "gmail_fetch" = 1 ∧
      (handle_error stGmail "gmail_fetch" RecoveryStrategy.retry 200).2.strategy
        = RecoveryStrategy.retry) ∧
    (∀ now2,
      (handle_error (reset_circuit stGmail "gmail_fetch") "gmail_fetch"
          RecoveryStrategy.retry now2).1.error_counts "gmail_fetch" = 1 ∧
      (handle_error (reset_circuit stGmail "gmail_fetch") "gmail_fetch"
          RecoveryStrategy.retry now2).2.strategy = RecoveryStrategy.retry)) :=
  ⟨by decide, by decide,
    circuit_breaker_forced_alert stGmail "gmail_fetch" RecoveryStrategy.retry 200 100
      (by decide) (by decide)⟩

/-- Counterexample to C5: on the ten tasks of Scenario E, a single
orchestrator cycle processes exactly one task (`run_cycle` takes only
`tasks[0]` of the sorted scan), not all ten. -/
theorem single_task_per_cycle_counterexample :
    ((run_cycle scenarioTasks).1.map OTask.name = ["T1"]) ∧
    (run_cycle scenarioTasks).1.length = 1 ∧
    (run_cycle scenarioTasks).1.length ≠ 10 := by
  refine ⟨by decide, by decide, by decide⟩

/-- Claim C5 (amended): for the ten tasks enqueued with priorities
`[low, urgent, medium, high, urgent, low, medium, high, urgent, low]`,
one scan (`scan_needs_action`) returns all ten sorted
urgent,urgent,urgent,high,high,medium,medium,low,low,low — ascending
numeric rank with ties broken by enqueue order — but a single
`run_cycle` processes only the first of them; ten successive cycles
process all ten in exactly that order. -/
theorem priority_order_scan :
    (scan_needs_action scenarioTasks).map OTask.name
      = ["T1", "T4", "T8", "T3", "T7", "T2", "T6", "T0", "T5", "T9"] ∧
    (scan_needs_action scenarioTasks).map (fun t => t.priority.getD "medium")
      = ["urgent", "urgent", "urgent", "high", "high",
         "medium", "medium", "low", "low", "low"] ∧
    (run_cycle scenarioTasks).1.map OTask.name = ["T1"] ∧
    run_cycles 10 scenarioTasks
      = ["T1", "T4", "T8", "T3", "T7", "T2", "T6", "T0", "T5", "T9"] := by
  refine ⟨by decide, by decide, by decide, by decide⟩

/-- Counterexample to C6: the registered `email_check` task
(`every_5_minutes`) runs at t = 1000 s on a fresh state and its bound
action raises.  The persisted last-run entry is not updated, so
`should_run` still reports the task due at t = 1000 s — the failing
task would be retried at the very next check, not at its next natural
scheduled time. -/
theorem failing_task_retried_counterexample :
    (run_task tasksEmailCheck stFresh "email_check" false SchedOutcome.raises 1000).2.ran
      = true ∧
    (run_task tasksEmailCheck stFresh "email_check" false SchedOutcome.raises 1000).1.last_run
        "email_check" = none ∧
    should_run tasksEmailCheck
      (run_task tasksEmailCheck stFresh "email_check" false SchedOutcome.raises 1000).1.last_run
      "email_check" 1000 = true := by
  refine ⟨by decide, by decide, by decide⟩

/-- Claim C6 (amended): `ScheduledTasksRunner.run_task` updates the
persisted last-run timestamp only when the bound action returns
normally; when the action raises, only the last-result entry is
written and the last-run map is unchanged, so `should_run` is
unaffected by a failing run and a failing task can be due again
immediately. -/
theorem run_task_last_run_update (tasks : String → Option String)
    (st : SchedState) (name : String) (force : Bool) (now now2 : Nat) :
    (run_task tasks st name force SchedOutcome.raises now).1.last_run = st.last_run ∧
    should_run tasks
        (run_task tasks st name force SchedOutcome.raises now).1.last_run name now2
      = should_run tasks st.last_run name now2 ∧
    (run_task tasks st name true SchedOutcome.success now).1.last_run name
      = (if (tasks name).isNone then st.last_run name else some now) := by
  have h1 : (run_task tasks st name force SchedOutcome.raises now).1.last_run
      = st.last_run := by
    rw [run_task]
    split
    · rfl
    · split
      · rfl
      · rfl
  refine ⟨h1, by rw [h1], ?_⟩
  rw [run_task]
  split
  · rfl
  · simp

/-- Counterexample to C7: content with both an APPROVE and a REJECT
checkbox checked is classified `APPROVED` — the approve patterns are
probed first — not `PENDING` as the claim states for ambiguous
content. -/
theorem ambiguous_marker_counterexample :
    detect_approval_status "- [x] **APPROVE**\n- [x] **REJECT**\n"
      = ApprovalStatus.approved ∧
    detect_approval_status "- [x] **APPROVE**\n- [x] **REJECT**\n"
      ≠ ApprovalStatus.pendingStatus := by
  refine ⟨by decide, by decide⟩

/-- Claim C7 (amended): `_detect_approval_status` classifies content
into {Pending, Approved, Rejected, NeedsEdit} by the ordered marker
pattern groups (checked checkbox, emoji-prefixed checkbox, explicit
status field), probing approve patterns before reject patterns before
edit patterns, the first matching group winning; content matching no
pattern stays Pending, while ambiguous content with both an APPROVE
and a REJECT marker checked is classified Approved (the earlier
group), not Pending. -/
theorem detect_first_match_wins (content : String) :
    (detect_approval_status content = ApprovalStatus.approved ↔
      hasApproveMarker (lowerChars content) = true) ∧
    (detect_approval_status content = ApprovalStatus.rejected ↔
      hasApproveMarker (lowerChars content) = false ∧
      hasRejectMarker (lowerChars content) = true) ∧
    (detect_approval_status content = ApprovalStatus.needsEdit ↔
      hasApproveMarker (lowerChars content) = false ∧
      hasRejectMarker (lowerChars content) = false ∧
      hasEditMarker (lowerChars content) = true) ∧
    (detect_approval_status content = ApprovalStatus.pendingStatus ↔
      hasApproveMarker (lowerChars content) = false ∧
      hasRejectMarker (lowerChars content) = false ∧
      hasEditMarker (lowerChars content) = false) := by
  cases h1 : hasApproveMarker (lowerChars content) <;>
    cases h2 : hasRejectMarker (lowerChars content) <;>
      cases h3 : hasEditMarker (lowerChars content) <;>
        simp [detect_approval_status, h1, h2, h3]

/-! ## Idempotence of the approval scan -/

/-- The per-file body leaves the state unchanged on an inert file. -/
theorem processFile_of_inert (handlers : String → Bool) (s : AWState)
    (f : String × String) (h : awInert s f) :
    processFile handlers s f = s := by
  rcases h with h | h | h
  · rw [processFile, if_pos h]
  · rw [processFile]
    split
    · rfl
    · rw [h]
  · rw [processFile]
    split
    · rfl
    · rw [h]

/-- Case analysis on the per-file body: either it leaves the state
unchanged because the file is inert, or it removes the file from
pending and adds its name to the processed set. -/
theorem processFile_shape (handlers : String → Bool) (s : AWState)
    (f : String × String) :
    (processFile handlers s f = s ∧ awInert s f) ∨
    ((processFile handlers s f).pending
        = s.pending.filter (fun g => decide (g.1 ≠ f.1)) ∧
      (processFile handlers s f).processed = f.1 :: s.processed) := by
  by_cases hp : s.processed.contains f.1 = true
  · exact Or.inl ⟨by rw [processFile, if_pos hp], Or.inl hp⟩
  · cases hdet : detect_approval_status f.2 with
    | pendingStatus =>
      refine Or.inl ⟨?_, Or.inr (Or.inl hdet)⟩
      rw [processFile, if_neg hp, hdet]
    | approved =>
      right
      rw [processFile, if_neg hp]
      simp only [hdet]
      split <;> exact ⟨by simp, by simp⟩
    | rejected =>
      right
      rw [processFile, if_neg hp]
      simp only [hdet]
      exact ⟨by simp, by simp⟩
    | needsEdit =>
      refine Or.inl ⟨?_, Or.inr (Or.inr hdet)⟩
      rw [processFile, if_neg hp, hdet]

/-- The per-file body never removes a name from `processed_files`. -/
theorem processFile_processed_mono (handlers : String → Bool) (s : AWState)
    (f : String × String) (n : String) (h : s.processed.contains n = true) :
    (processFile handlers s f).processed.contains n = true := by
  rcases processFile_shape handlers s f with ⟨heq, _⟩ | ⟨_, hproc⟩
  · rw [heq]; exact h
  · rw [hproc]
    simp only [List.contains_cons, h, Bool.or_true]

/-- The per-file body only removes files from the pending partition. -/
theorem processFile_pending_sub (handlers : String → Bool) (s : AWState)
    (f g : String × String) (h : g ∈ (processFile handlers s f).pending) :
    g ∈ s.pending := by
  rcases processFile_shape handlers s f with ⟨heq, _⟩ | ⟨hpend, _⟩
  · rw [heq] at h; exact h
  · rw [hpend] at h
    exact (List.mem_filter.mp h).1

/-- A file that survives its own processing is inert afterwards: either
it was skipped because its name was already processed, or it carried no
decisive marker (otherwise it would have been moved out of pending). -/
theorem processFile_self_inert (handlers : String → Bool) (s : AWState)
    (f : String × String) (h : f ∈ (processFile handlers s f).pending) :
    awInert (processFile handlers s f) f := by
  rcases processFile_shape handlers s f with ⟨heq, hin⟩ | ⟨hpend, _⟩
  · rw [heq]; exact hin
  · rw [hpend] at h
    have := (List.mem_filter.mp h).2
    simp at this

/-- Inertness transfers along any state whose processed set is at least
as large (the marker tests depend only on the file itself). -/
theorem awInert_mono (s s2 : AWState) (f : String × String)
    (h : awInert s f)
    (hmono : ∀ n, s.processed.contains n = true → s2.processed.contains n = true) :
    awInert s2 f := by
  rcases h with h | h | h
  · exact Or.inl (hmono f.1 h)
  · exact Or.inr (Or.inl h)
  · exact Or.inr (Or.inr h)

/-- Folding the per-file body never removes processed names. -/
theorem foldl_processed_mono (handlers : String → Bool) :
    ∀ (l : List (String × String)) (s : AWState) (n : String),
      s.processed.contains n = true →
      (l.foldl (processFile handlers) s).processed.contains n = true := by
  intro l
  induction l with
  | nil => intro s n h; exact h
  | cons g t ih =>
    intro s n h
    exact ih (processFile handlers s g) n (processFile_processed_mono handlers s g n h)

/-- Folding the per-file body only shrinks the pending partition. -/
theorem foldl_pending_sub (handlers : String → Bool) :
    ∀ (l : List (String × String)) (s : AWState) (g : String × String),
      g ∈ (l.foldl (processFile handlers) s).pending → g ∈ s.pending := by
  intro l
  induction l with
  | nil => intro s g h; exact h
  | cons x t ih =>
    intro s g h
    exact processFile_pending_sub handlers s x g (ih (processFile handlers s x) g h)

/-- Every file still pending after a scan over a list it belonged to is
inert for the resulting state. -/
theorem foldl_survivors_inert (handlers : String → Bool) :
    ∀ (l : List (String × String)) (s : AWState) (f : String × String),
      f ∈ (l.foldl (processFile handlers) s).pending → f ∈ l →
      awInert (l.foldl (processFile handlers) s) f := by
  intro l
  induction l with
  | nil => intro s f _ hmem; exact absurd hmem (List.not_mem_nil f)
  | cons g t ih =>
    intro s f hpend hmem
    rcases List.mem_cons.mp hmem with rfl | hmem
    · have hpend1 : f ∈ (processFile handlers s f).pending :=
        foldl_pending_sub handlers t (processFile handlers s f) f hpend
      exact awInert_mono (processFile handlers s f) _ f
        (processFile_self_inert handlers s f hpend1)
        (fun n hn => foldl_processed_mono handlers t (processFile handlers s f) n hn)
    · exact ih (processFile handlers s g) f hpend hmem

/-- A scan over files that are all inert is the identity. -/
theorem foldl_inert_id (handlers : String → Bool) :
    ∀ (l : List (String × String)) (s : AWState),
      (∀ f ∈ l, awInert s f) → l.foldl (processFile handlers) s = s := by
  intro l
  induction l with
  | nil => intro s _; rfl
  | cons g t ih =>
    intro s h
    rw [List.foldl_cons, processFile_of_inert handlers s g (h g (List.mem_cons_self g t))]
    exact ih s fun f hf => h f (List.mem_cons_of_mem g hf)

/-- Claim C8: running `check_for_approvals` again after a scan is a
no-op — the resulting state (pending/approved/done/rejected partitions,
processed set and handler-call log) is identical, and in particular no
registered action handler is invoked a second time for any artifact:
the per-artifact handler call count is unchanged. -/
theorem approval_rescan_idempotent (handlers : String → Bool) (s : AWState) :
    check_for_approvals handlers (check_for_approvals handlers s)
      = check_for_approvals handlers s ∧
    ∀ n : String,
      (check_for_approvals handlers (check_for_approvals handlers s)).handlerCalls.count n
        = (check_for_approvals handlers s).handlerCalls.count n := by
  have hid : check_for_approvals handlers (check_for_approvals handlers s)
      = check_for_approvals handlers s := by
    rw [check_for_approvals]
    exact foldl_inert_id handlers _ _ fun f hf =>
      foldl_survivors_inert handlers s.pending s f hf
        (foldl_pending_sub handlers s.pending s f hf)
  exact ⟨hid, fun n => by rw [hid]⟩

/-- Claim C9: `verify_log_integrity` recomputes each entry's checksum
exactly as `_calculate_checksum` does and reports integrity `"valid"`
iff the number of mismatching entries is zero; the valid and invalid
tallies always sum to the entry count; and a journal consisting of
entries produced by `log` and left unmodified verifies with zero
invalid entries, every entry valid, and integrity `"valid"` — the
write-then-verify round-trip — for any digest function. -/
theorem audit_checksum_roundtrip (h : String → String)
    (entries : List AuditEvent) (cores : List EventCore) :
    ((verify_log_integrity h entries).integrity = "valid" ↔
      (verify_log_integrity h entries).invalid = 0) ∧
    (verify_log_integrity h entries).valid + (verify_log_integrity h entries).invalid
      = (verify_log_integrity h entries).total_events ∧
    (verify_log_integrity h (cores.map (logEvent h))).invalid = 0 ∧
    (verify_log_integrity h (cores.map (logEvent h))).valid = cores.length ∧
    (verify_log_integrity h (cores.map (logEvent h))).integrity = "valid" := by
  refine ⟨?_, ?_, ?_, ?_, ?_⟩
  · rw [verify_log_integrity]
    by_cases hz :
        (entries.countP fun e => !(e.checksum == calculate_checksum h e)) = 0
    · simp [hz]
    · simp only [if_neg hz]
      constructor
      · intro hcontra
        exact absurd hcontra (by decide)
      · intro hcontra
        exact absurd hcontra hz
  · rw [verify_log_integrity]
    have := List.length_eq_countP_add_countP
      (l := entries) (fun e => e.checksum == calculate_checksum h e)
    simp only [this]
    congr 1
    refine List.countP_congr fun e _ => ?_
    cases he : e.checksum == calculate_checksum h e <;> simp [he]
  · rw [verify_log_integrity]
    simp only [List.countP_map]
    rw [List.countP_eq_zero]
    intro c _
    simp [Function.comp, logEvent, calculate_checksum]
  · rw [verify_log_integrity]
    simp only [List.countP_map]
    rw [show cores.length = List.countP (fun _ => true) cores by
      simp [List.countP_true]]
    refine List.countP_congr fun c _ => ?_
    simp [Function.comp, logEvent, calculate_checksum]
  · rw [verify_log_integrity]
    simp only [List.countP_map]
    have hz : List.countP
        ((fun e => !(e.checksum == calculate_checksum h e)) ∘ logEvent h) cores = 0 := by
      rw [List.countP_eq_zero]
      intro c _
      simp [Function.comp, logEvent, calculate_checksum]
    simp [hz]

end AIEmployee
